import Mathlib

/-!
Verification of `Modules/create_bar_animation.py` (spotify_animation_app).

This file gives a shallow embedding of the data-processing and animation core
of the bar-chart-race module and proves (or refutes) the frozen claims about
it.  Conventions of the embedding:

* Event periods / timestamps are `Nat` (their day granularity: the module runs
  with `period = "d"` and the timestamps are daily `pd.Period` values converted
  with `.dt.to_timestamp()`; `pd.Timedelta(days=4)` becomes `+ 4`).
* Metric values are `Nat` in the aggregation stage (`Streams` counts and
  `duration_ms` sums are non-negative integers) and `ℚ` in the interpolation
  stage (the Python floats are modelled by exact rationals).
* A pandas DataFrame is a list of row structures; `groupby`, `sort_values`,
  `filter` and friends are explicit list computations.  `sort_values` on a
  single column and the stable multi-column lexsort are both modelled by the
  stable `List.insertionSort`; pandas emits `groupby` groups in sorted-key
  order, modelled here in first-appearance order (`List.dedup`) — the group
  order can only permute rows that the later value sort treats as ties, and
  no proved property depends on the tie permutation.
* The unguarded Python expression `timestamps[-1]` (an `IndexError` on an
  empty list) is modelled by `Option`: `none` is the raised error.
-/

namespace SpotifyAnim

/-- Module-level constant `days = 30` of `create_bar_animation.py`: the
sampling stride used by `precompute_data` via `timestamps[::days]`. -/
def days : Nat := 30

/-- Python slicing `l[::k]`: every `k`-th element of `l`, starting at index
`0`. -/
def takeEvery (k : Nat) (l : List Nat) : List Nat :=
  (l.enum.filter (fun p => p.1 % k = 0)).map Prod.snd

/-- `sorted(set(l))` on the `Date` column: the distinct values in ascending
order (`sorted(monthly_df["Date"].unique())`, line 163). -/
def sortedUnique (l : List Nat) : List Nat :=
  List.insertionSort (· ≤ ·) l.dedup

/-- Lines 162-164 of `precompute_data`: shift the start date by four days
(`start_date = start_date + pd.Timedelta(days=4)`, commented in the source as
"skip first 4 days for cleaner inital frame") and keep the distinct event
periods `ts` with `start_date <= ts <= end_date`. -/
def filteredPeriods (dates : List Nat) (startDate endDate : Nat) : List Nat :=
  (sortedUnique dates).filter (fun d => decide (startDate + 4 ≤ d ∧ d ≤ endDate))

/-- Line 165: `timestamps = timestamps[::days]` — the sample-timestamp
candidates before the end-date normalization step. -/
def candidatePeriods (dates : List Nat) (startDate endDate : Nat) : List Nat :=
  takeEvery days (filteredPeriods dates startDate endDate)

/-- Modelled from the spec: the candidate pool as §4.2 words it — "collect all
distinct periods within [start,end]", with the closed interval starting at
`start_date` itself, then "subsample every k-th one".  Used only to compare
the spec's wording against `candidatePeriods`, which the source computes from
`start_date + 4` days instead. -/
def candidatePeriodsClaimed (dates : List Nat) (startDate endDate : Nat) : List Nat :=
  takeEvery days
    ((sortedUnique dates).filter (fun d => decide (startDate ≤ d ∧ d ≤ endDate)))

/-- Lines 163-172 of `precompute_data`: the sampled timestamp list, with the
end-date normalization.  `none` models the `IndexError` that the unguarded
`timestamps[-1]` raises when the filtered list is empty.  When the last
candidate differs from `end_date`, the source appends `end_date` (if it is
larger) or overwrites the last entry with it (otherwise), then re-sorts. -/
def sampleTimestamps (dates : List Nat) (startDate endDate : Nat) :
    Option (List Nat) :=
  let ts := candidatePeriods dates startDate endDate
  match ts.getLast? with
  | none => none
  | some last =>
    if last = endDate then some ts
    else if last < endDate then
      some (List.insertionSort (· ≤ ·) (ts ++ [endDate]))
    else
      some (List.insertionSort (· ≤ ·) (ts.dropLast ++ [endDate]))

/-! ### Helper lemmas about the timestamp pipeline -/

theorem takeEvery_aux_sublist (p : Nat × Nat → Bool) :
    ∀ (n : Nat) (l : List Nat),
      List.Sublist (((List.enumFrom n l).filter p).map Prod.snd) l := by
  intro n l
  induction l generalizing n with
  | nil => simp
  | cons x xs ih =>
    simp only [List.enumFrom, List.filter]
    cases p (n, x) with
    | true => exact List.Sublist.cons₂ x (ih (n + 1))
    | false => exact List.Sublist.cons x (ih (n + 1))

theorem takeEvery_sublist (k : Nat) (l : List Nat) :
    List.Sublist (takeEvery k l) l :=
  takeEvery_aux_sublist _ 0 l

theorem takeEvery_ne_nil (k : Nat) (l : List Nat) (h : l ≠ []) :
    takeEvery k l ≠ [] := by
  cases l with
  | nil => exact absurd rfl h
  | cons x xs =>
    simp [takeEvery, List.enum, List.enumFrom, List.filter, Nat.zero_mod]

theorem takeEvery_eq_nil_iff (k : Nat) (l : List Nat) :
    takeEvery k l = [] ↔ l = [] := by
  constructor
  · intro h
    by_contra hne
    exact takeEvery_ne_nil k l hne h
  · intro h
    subst h
    rfl

theorem sortedUnique_sorted_lt (l : List Nat) :
    List.Sorted (· < ·) (sortedUnique l) := by
  have hs : List.Sorted (· ≤ ·) (sortedUnique l) :=
    List.sorted_insertionSort _ _
  have hn : (sortedUnique l).Nodup :=
    (List.perm_insertionSort _ _).symm.nodup (List.nodup_dedup l)
  exact hs.lt_of_le hn

theorem mem_sortedUnique (l : List Nat) (a : Nat) :
    a ∈ sortedUnique l ↔ a ∈ l := by
  unfold sortedUnique
  rw [List.mem_insertionSort, List.mem_dedup]

theorem filteredPeriods_sorted_lt (dates : List Nat) (s e : Nat) :
    List.Sorted (· < ·) (filteredPeriods dates s e) :=
  List.Pairwise.filter _ (sortedUnique_sorted_lt dates)

theorem mem_filteredPeriods (dates : List Nat) (s e : Nat) (d : Nat) :
    d ∈ filteredPeriods dates s e ↔ d ∈ dates ∧ s + 4 ≤ d ∧ d ≤ e := by
  unfold filteredPeriods
  rw [List.mem_filter, mem_sortedUnique, decide_eq_true_eq]

theorem candidatePeriods_sorted_lt (dates : List Nat) (s e : Nat) :
    List.Sorted (· < ·) (candidatePeriods dates s e) :=
  List.Pairwise.sublist (takeEvery_sublist days _)
    (filteredPeriods_sorted_lt dates s e)

theorem mem_candidatePeriods_le (dates : List Nat) (s e : Nat) (d : Nat)
    (h : d ∈ candidatePeriods dates s e) : d ≤ e :=
  (((mem_filteredPeriods dates s e d).mp
    (List.Sublist.mem h (takeEvery_sublist days _))).2).2

theorem sorted_le_getLast {l : List Nat} {m : Nat}
    (hs : List.Sorted (· ≤ ·) l) (hl : l.getLast? = some m) :
    ∀ x ∈ l, x ≤ m := by
  induction l with
  | nil => simp at hl
  | cons a t ih =>
    intro x hx
    cases t with
    | nil =>
      simp only [List.getLast?_singleton, Option.some.injEq] at hl
      simp only [List.mem_singleton] at hx
      omega
    | cons b u =>
      have hl' : (b :: u).getLast? = some m := by
        simpa [List.getLast?_cons_cons] using hl
      rcases List.mem_cons.mp hx with rfl | hx'
      · have hb : b ∈ b :: u := List.mem_cons_self b u
        have le1 : x ≤ b := (List.sorted_cons.mp hs).1 b hb
        have le2 : b ≤ m := ih (List.sorted_cons.mp hs).2 hl' b hb
        omega
      · exact ih (List.sorted_cons.mp hs).2 hl' x hx'

theorem getLast?_mem {l : List Nat} {m : Nat} (h : l.getLast? = some m) :
    m ∈ l := by
  obtain ⟨hne, rfl⟩ := List.mem_getLast?_eq_getLast (by rw [h]; rfl)
  exact List.getLast_mem hne

/-! ### Claims C2, C9, C10: the sampled timestamp list -/

/-- C2: for every start and end date, whenever `precompute_data` returns a
timestamp list (the non-error case), that list contains `end_date` exactly
once and is strictly increasing (hence free of duplicates). -/
theorem sampleTimestamps_end_once_strictMono (dates : List Nat)
    (startDate endDate : Nat) (ts : List Nat)
    (h : sampleTimestamps dates startDate endDate = some ts) :
    ts.count endDate = 1 ∧ List.Sorted (· < ·) ts := by
  cases hL : (candidatePeriods dates startDate endDate).getLast? with
  | none =>
    simp only [sampleTimestamps, hL] at h
    exact Option.noConfusion h
  | some last =>
    simp only [sampleTimestamps, hL] at h
    have hsorted : List.Sorted (· < ·) (candidatePeriods dates startDate endDate) :=
      candidatePeriods_sorted_lt dates startDate endDate
    have hsortedLe : List.Sorted (· ≤ ·) (candidatePeriods dates startDate endDate) :=
      hsorted.imp le_of_lt
    have hlastMem : last ∈ candidatePeriods dates startDate endDate :=
      getLast?_mem hL
    have hlastLe : last ≤ endDate :=
      mem_candidatePeriods_le dates startDate endDate last hlastMem
    by_cases h1 : last = endDate
    · rw [if_pos h1] at h
      obtain rfl := Option.some.injEq _ _ ▸ h
      refine ⟨?_, hsorted⟩
      exact List.count_eq_one_of_mem hsorted.nodup (h1 ▸ hlastMem)
    · rw [if_neg h1] at h
      have h2 : last < endDate := lt_of_le_of_ne hlastLe h1
      rw [if_pos h2] at h
      have hlt : ∀ x ∈ candidatePeriods dates startDate endDate, x < endDate := by
        intro x hx
        have : x ≤ last := sorted_le_getLast hsortedLe hL x hx
        omega
      have happ : List.Sorted (· < ·)
          (candidatePeriods dates startDate endDate ++ [endDate]) := by
        apply List.pairwise_append.mpr
        refine ⟨hsorted, List.pairwise_singleton _ _, ?_⟩
        intro x hx y hy
        rw [List.mem_singleton] at hy
        exact hy ▸ hlt x hx
      have heq : List.insertionSort (· ≤ ·)
            (candidatePeriods dates startDate endDate ++ [endDate]) =
          candidatePeriods dates startDate endDate ++ [endDate] :=
        List.Sorted.insertionSort_eq (happ.imp le_of_lt)
      rw [heq] at h
      obtain rfl := Option.some.injEq _ _ ▸ h
      refine ⟨?_, happ⟩
      rw [List.count_append, List.count_eq_zero_of_not_mem, List.count_singleton_self]
      intro hmem
      exact absurd (hlt endDate hmem) (lt_irrefl endDate)

/-- C2 witness: a concrete run.  With event periods `{4, 100}`, start date `0`
and end date `100`, the stride keeps `[4]` and the normalization appends the
end date, giving `[4, 100]`: the end date occurs exactly once and the list is
strictly increasing. -/
theorem sampleTimestamps_end_once_strictMono_witness :
    ([4, 100] : List Nat).count 100 = 1 ∧
      List.Sorted (· < ·) ([4, 100] : List Nat) :=
  sampleTimestamps_end_once_strictMono [4, 100] 0 100 [4, 100] (by decide)

/-- C9 counterexample: the claim says the candidate pool is the distinct
periods inside the closed interval `[start_date, end_date]`, with no other
exclusion.  With the single-period table `{0, 50}`, `start_date = 0` and
`end_date = 50`, the source excludes period `0` (it lies in the first four
days after the start date, which line 162 skips), so the candidates are
`[50]`, not the `[0]` the claimed interval would give. -/
theorem candidatePeriods_counterexample :
    candidatePeriods [0, 50] 0 50 ≠ candidatePeriodsClaimed [0, 50] 0 50 := by
  decide

/-- C9 amended: the sample-timestamp candidates are exactly the distinct event
periods lying within the closed interval `[start_date + 4 days, end_date]`
(the source shifts the start of the window by four days, commented "skip
first 4 days for cleaner inital frame"), subsampled every `days`-th one; no
period inside that shifted window is excluded from candidacy for any other
reason. -/
theorem candidatePeriods_characterization (dates : List Nat)
    (startDate endDate : Nat) :
    candidatePeriods dates startDate endDate =
        takeEvery days (filteredPeriods dates startDate endDate) ∧
      ∀ d, d ∈ filteredPeriods dates startDate endDate ↔
        d ∈ dates ∧ startDate + 4 ≤ d ∧ d ≤ endDate :=
  ⟨rfl, fun d => mem_filteredPeriods dates startDate endDate d⟩

/-- C10: `precompute_data` errors (modelled as `none`, the `IndexError` of the
unguarded `timestamps[-1]`) exactly when no distinct event period lies in the
sampling window `[start_date + 4 days, end_date]`; under the non-empty
precondition the error branch is unreachable and a list is returned. -/
theorem sampleTimestamps_none_iff (dates : List Nat) (startDate endDate : Nat) :
    sampleTimestamps dates startDate endDate = none ↔
      ∀ d ∈ dates, ¬ (startDate + 4 ≤ d ∧ d ≤ endDate) := by
  have hstep : sampleTimestamps dates startDate endDate = none ↔
      candidatePeriods dates startDate endDate = [] := by
    cases hL : (candidatePeriods dates startDate endDate).getLast? with
    | none =>
      have hnil := List.getLast?_eq_none_iff.mp hL
      simp [sampleTimestamps, hL, hnil]
    | some last =>
      have hne : candidatePeriods dates startDate endDate ≠ [] := by
        intro hnil
        rw [hnil] at hL
        exact absurd hL (by simp)
      constructor
      · intro hcontra
        simp only [sampleTimestamps, hL] at hcontra
        by_cases h1 : last = endDate <;> by_cases h2 : last < endDate <;>
          simp [h1, h2] at hcontra
      · intro hnil
        exact absurd hnil hne
  rw [hstep]
  unfold candidatePeriods
  rw [takeEvery_eq_nil_iff]
  unfold filteredPeriods
  rw [List.filter_eq_nil_iff]
  constructor
  · intro hall d hd
    have := hall d ((mem_sortedUnique dates d).mpr hd)
    simpa using this
  · intro hall d hd
    have := hall d ((mem_sortedUnique dates d).mp hd)
    simpa using this

/-! ### Snapshot builder (`precompute_data`, lines 174-227) -/

/-- One row of the aggregated table `monthly_df` as `precompute_data` consumes
it: the event period (`Date`), the ranked-attribute value
(`selected_attribute`, the entity display name), the secondary attribute
(`artist_name`), the stable id (`track_uri`) and the running cumulative metric
value (`Cumulative_<analysis_metric>`). -/
structure AggRow where
  date : Nat
  key : String
  artist : String
  uri : String
  cum : Nat
deriving DecidableEq

/-- The `"max"` aggregation of the cumulative column over one group: pandas
`groupby(selected_attribute).agg({f"Cumulative_{analysis_metric}": "max"})`
(line 178-184, commented "avoids double counting"). -/
def maxCumFor (tbl : List AggRow) (k : String) : Nat :=
  ((tbl.filter (fun r => r.key == k)).map (fun r => r.cum)).foldr max 0

/-- Lines 177-192: one output row per distinct ranked-attribute value,
carrying the maximum cumulative value of its group.  pandas emits the groups
in sorted-key order; here they are kept in first-appearance order, which can
only permute rows that the subsequent value sort treats as ties. -/
def groupedByKey (tbl : List AggRow) : List (String × Nat) :=
  ((tbl.map (fun r => r.key)).dedup).map (fun k => (k, maxCumFor tbl k))

/-- The ordering used by lines 194-205: descending in the cumulative value.
The source sorts twice — once by the cumulative column alone, then by
`[Cumulative, prev_rank]` with `prev_rank` a freshly assigned column that is
the constant `top_n` on every row — so the constant secondary key never
separates ties and the net effect is one stable descending sort on the
cumulative value. -/
def cumGE (a b : String × Nat) : Prop := b.2 ≤ a.2

instance : DecidableRel cumGE := fun a b => Nat.decLe b.2 a.2

instance : IsTotal (String × Nat) cumGE := ⟨fun a b => Nat.le_total b.2 a.2⟩

instance : IsTrans (String × Nat) cumGE :=
  ⟨fun _ _ _ hab hbc => le_trans hbc hab⟩

/-- Lines 176-205: filter the aggregated table to rows with `Date <= ts`,
group by the ranked attribute taking the maximum cumulative value, sort
descending by cumulative value and keep the first `top_n` rows
(`.head(top_n)`). -/
def snapshotTop (tbl : List AggRow) (ts : Nat) (n : Nat) : List (String × Nat) :=
  (List.insertionSort cumGE
    (groupedByKey (tbl.filter (fun r => decide (r.date ≤ ts))))).take n

/-- Lines 220: `names = top_n_df[selected_attribute].tolist() + [""] * (top_n
- len(top_n_df))` — the slot entity names, right-padded with empty names. -/
def snapshotNames (tbl : List AggRow) (ts : Nat) (n : Nat) : List String :=
  (snapshotTop tbl ts n).map Prod.fst ++
    List.replicate (n - (snapshotTop tbl ts n).length) ""

/-- Lines 206-208: the slot values (`widths`), right-padded with zeros to
exactly `top_n` entries. -/
def snapshotWidths (tbl : List AggRow) (ts : Nat) (n : Nat) : List Nat :=
  (snapshotTop tbl ts n).map Prod.snd ++
    List.replicate (n - (snapshotTop tbl ts n).length) 0

theorem snapshotTop_length_le (tbl : List AggRow) (ts n : Nat) :
    (snapshotTop tbl ts n).length ≤ n := by
  unfold snapshotTop
  rw [List.length_take]
  exact Nat.min_le_left n _

theorem snapshotTop_sorted (tbl : List AggRow) (ts n : Nat) :
    List.Pairwise cumGE (snapshotTop tbl ts n) :=
  List.Pairwise.sublist (List.take_sublist n _)
    (List.sorted_insertionSort cumGE _)

/-! ### Claim C1: snapshot shape, ordering and determinism -/

/-- C1: for every aggregated table, every `N` and every sampled timestamp,
the snapshot has exactly `N` name slots and `N` value slots, the values are
non-increasing from slot `0` to slot `N-1`, and every slot beyond the ranked
rows is an empty-name, zero-value padding slot.  Tie order is deterministic:
the builder is a pure function of the table, the timestamp and `N` (the
secondary sort key `prev_rank` that the source adds is the constant `top_n`,
so ties keep the stable sort's input order, itself a function of the data). -/
theorem snapshot_shape (tbl : List AggRow) (ts n : Nat)
    (_h1 : 1 ≤ n) (_h2 : n ≤ 10) :
    (snapshotNames tbl ts n).length = n ∧
    (snapshotWidths tbl ts n).length = n ∧
    List.Sorted (fun a b => b ≤ a) (snapshotWidths tbl ts n) ∧
    (∀ i, (snapshotTop tbl ts n).length ≤ i → i < n →
      (snapshotNames tbl ts n).getD i "pad" = "" ∧
      (snapshotWidths tbl ts n).getD i 1 = 0) := by
  have htop : (snapshotTop tbl ts n).length ≤ n := snapshotTop_length_le tbl ts n
  refine ⟨?_, ?_, ?_, ?_⟩
  · unfold snapshotNames
    rw [List.length_append, List.length_map, List.length_replicate]
    omega
  · unfold snapshotWidths
    rw [List.length_append, List.length_map, List.length_replicate]
    omega
  · unfold snapshotWidths
    apply List.pairwise_append.mpr
    refine ⟨?_, ?_, ?_⟩
    · exact (List.pairwise_map).mpr (snapshotTop_sorted tbl ts n)
    · exact List.pairwise_replicate.mpr (Or.inr (le_refl 0))
    · intro x _ y hy
      rw [List.eq_of_mem_replicate hy]
      exact Nat.zero_le x
  · intro i hge hlt
    have hnames : (snapshotNames tbl ts n).getD i "pad" = "" := by
      unfold snapshotNames
      rw [List.getD_eq_getElem?_getD, List.getElem?_append_right
        (by rw [List.length_map]; exact hge)]
      rw [List.length_map, List.getElem?_replicate_of_lt (by omega)]
      rfl
    have hwidths : (snapshotWidths tbl ts n).getD i 1 = 0 := by
      unfold snapshotWidths
      rw [List.getD_eq_getElem?_getD, List.getElem?_append_right
        (by rw [List.length_map]; exact hge)]
      rw [List.length_map, List.getElem?_replicate_of_lt (by omega)]
      rfl
    exact ⟨hnames, hwidths⟩

/-- C1 witness: with two entities and `N = 5` the snapshot is
`["B", "A", "", "", ""]` / `[5, 3, 0, 0, 0]`: five slots, non-increasing
values, empty/zero padding. -/
theorem snapshot_shape_witness :
    (snapshotNames [⟨1, "A", "A", "u", 3⟩, ⟨1, "B", "B", "v", 5⟩] 1 5).length = 5 ∧
    (snapshotWidths [⟨1, "A", "A", "u", 3⟩, ⟨1, "B", "B", "v", 5⟩] 1 5).length = 5 ∧
    List.Sorted (fun a b => b ≤ a)
      (snapshotWidths [⟨1, "A", "A", "u", 3⟩, ⟨1, "B", "B", "v", 5⟩] 1 5) ∧
    (∀ i, (snapshotTop [⟨1, "A", "A", "u", 3⟩, ⟨1, "B", "B", "v", 5⟩] 1 5).length ≤ i →
      i < 5 →
      (snapshotNames [⟨1, "A", "A", "u", 3⟩, ⟨1, "B", "B", "v", 5⟩] 1 5).getD i "pad" = "" ∧
      (snapshotWidths [⟨1, "A", "A", "u", 3⟩, ⟨1, "B", "B", "v", 5⟩] 1 5).getD i 1 = 0) :=
  snapshot_shape [⟨1, "A", "A", "u", 3⟩, ⟨1, "B", "B", "v", 5⟩] 1 5
    (by decide) (by decide)

/-! ### Aggregator cumulative sums (`create_bar_animation`, lines 282-369) -/

/-- One row of the per-period table `monthly_df` before the cumulative column
is added, for the `track_name` ranked attribute: the source groups the raw
events by `["Date", "track_name", "artist_name", "track_uri"]` (lines 285-291
and 324-329), so each row carries the full composite key and the period's
metric contribution (an event count for `Streams`, a summed `duration_ms`
otherwise).  The rows are in `sort_values("Date")` order. -/
structure PlayRow where
  date : Nat
  track : String
  artist : String
  uri : String
  metric : Nat
deriving DecidableEq

/-- The full composite key of a track row: display name, artist name and the
stable id. -/
def fullKey (r : PlayRow) : String × String × String := (r.track, r.artist, r.uri)

/-- pandas `df.groupby(keyf).cumsum()` over a column, keeping row order: the
value at row `i` is the sum of the metric over the rows `j ≤ i` whose key
equals row `i`'s key. -/
def cumsumBy {α : Type} [DecidableEq α] (keyf : PlayRow → α)
    (rows : List PlayRow) : List Nat :=
  rows.enum.map (fun p =>
    (((rows.take (p.1 + 1)).filter
      (fun r => decide (keyf r = keyf p.2))).map (fun r => r.metric)).sum)

/-- Lines 358-361: for `analysis_metric == "Streams"` and
`selected_attribute == "track_name"`, the cumulative column is
`monthly_df.groupby([track_name, artist_name, track_uri])[metric].cumsum()` —
grouped by the full composite key. -/
def cumulativeStreamsTrack (rows : List PlayRow) : List Nat :=
  cumsumBy fullKey rows

/-- Lines 318-321: for `analysis_metric == "duration_ms"` (any ranked
attribute, including `track_name`), the cumulative column is
`monthly_df.groupby(selected_attribute)[metric].cumsum()` — grouped by the
display name alone. -/
def cumulativeDurationTrack (rows : List PlayRow) : List Nat :=
  cumsumBy (fun r => r.track) rows

/-! ### Claim C3: composite-key cumulative sums -/

/-- C3 counterexample: two distinct tracks share the display name `"T"` but
have different artists and stable ids.  The claim says the summed-duration
cumulative metric is computed over the full composite key; in the source it is
grouped by `track_name` alone, so the second track's running sum `30` absorbs
the first track's `10` instead of being the composite-key value `20`. -/
theorem cumulativeDuration_counterexample :
    cumulativeDurationTrack
        [⟨1, "T", "A1", "u1", 10⟩, ⟨2, "T", "A2", "u2", 20⟩] ≠
      cumsumBy fullKey [⟨1, "T", "A1", "u1", 10⟩, ⟨2, "T", "A2", "u2", 20⟩] := by
  decide

/-- C3 amended: with the ranked attribute at the leaf-level track key, the
event-count (`Streams`) cumulative metric is computed over the full composite
key, so two rows that share a display name but differ in stable id never merge
their running sums; the summed-duration (`duration_ms`) cumulative metric,
however, is grouped by the display name alone, so such rows DO merge: the
later row's running sum includes the earlier row's contribution. -/
theorem cumulative_composite_key (r1 r2 : PlayRow)
    (hname : r1.track = r2.track) (huri : r1.uri ≠ r2.uri) :
    cumulativeStreamsTrack [r1, r2] = [r1.metric, r2.metric] ∧
    cumulativeDurationTrack [r1, r2] = [r1.metric, r1.metric + r2.metric] := by
  constructor
  · have hne : fullKey r1 ≠ fullKey r2 := by
      intro hcontra
      exact huri (congrArg (fun p => p.2.2) hcontra)
    simp [cumulativeStreamsTrack, cumsumBy, List.enum, List.enumFrom,
      List.filter, List.take, hne]
  · simp [cumulativeDurationTrack, cumsumBy, List.enum, List.enumFrom,
      List.filter, List.take, hname, Nat.add_comm]

/-- C3 amended witness: at the concrete rows of the counterexample, the
event-count running sums stay separate (`[10, 20]`) while the duration
running sums merge (`[10, 30]`). -/
theorem cumulative_composite_key_witness :
    cumulativeStreamsTrack
        [⟨1, "T", "A1", "u1", 10⟩, ⟨2, "T", "A2", "u2", 20⟩] = [10, 20] ∧
    cumulativeDurationTrack
        [⟨1, "T", "A1", "u1", 10⟩, ⟨2, "T", "A2", "u2", 20⟩] = [10, 30] :=
  cumulative_composite_key ⟨1, "T", "A1", "u1", 10⟩ ⟨2, "T", "A2", "u2", 20⟩
    rfl (by decide)

/-! ### Interpolation engine (`animate`, lines 584-857) -/

/-- Lines 584-586: `quadratic_ease_in_out(t) = t * t * (3 - 2 * t)`.  The
Python floats are modelled by exact rationals. -/
def quadratic_ease_in_out (t : ℚ) : ℚ := t * t * (3 - 2 * t)

/-- Lines 602-605 (and 420-423): the fixed per-slot target screen positions:
`[4.5]` for `top_n == 1`, otherwise `8.9 - i * (8.6 / (top_n - 1))` for
`i = 0 .. top_n - 1`. -/
def targetPositionsList (n : Nat) : List ℚ :=
  if n = 1 then [9/2]
  else (List.range n).map (fun i => 89/10 - (i : ℚ) * ((86/10) / ((n : ℚ) - 1)))

/-- Lines 615-621: the identity mapping computed at the first sub-frame of a
transition.  For each new slot, Python's `name in prev_names` /
`prev_names.index(name)` pair is exactly `findIdx?`: the index of the FIRST
occurrence of the slot's name in the previous snapshot's name list, or `none`
when the name does not appear there.  The mapping depends only on the two
name lists, so it is a deterministic function of the two snapshots. -/
def barMapping (names prevNames : List String) : List (Option Nat) :=
  names.map (fun nm => prevNames.findIdx? (fun p => p == nm))

/-- Lines 622-629: per-slot start positions: a mapped slot starts from its
previous slot's rolling interpolated position
(`prev_interp_positions[bar_mapping[i]]`), an unmapped slot enters from the
fixed off-screen value `-1`. -/
def startPositions (names prevNames : List String) (prevInterp : List ℚ) :
    List ℚ :=
  (barMapping names prevNames).map
    (fun o => (o.map (fun j => prevInterp.getD j 0)).getD (-1))

/-- Lines 648-656: the interpolated widths.  Note the source indexes
`anim_state.prev_widths[i]` with the SLOT index `i`, not with the identity
mapping; the `else` arm is the guard `if i < len(anim_state.prev_widths)`. -/
def interpWidths (prevWidths widths : List ℚ) (n : Nat) (tE : ℚ) : List ℚ :=
  (List.range n).map (fun i =>
    if i < prevWidths.length then
      prevWidths.getD i 0 + (widths.getD i 0 - prevWidths.getD i 0) * tE
    else widths.getD i 0 * tE)

/-- Modelled from the claim (C5), for comparison with `interpWidths`: the
entity-keyed previous width — `0` when the slot's entity was not in the
previous snapshot, otherwise THAT ENTITY's previous width, found through the
first occurrence of its name. -/
def entityPrevWidth (prevNames : List String) (prevWidths : List ℚ)
    (nm : String) : ℚ :=
  ((prevNames.findIdx? (fun p => p == nm)).map
    (fun j => prevWidths.getD j 0)).getD 0

/-- Modelled from the claim (C5/C6): width interpolation from the
entity-keyed previous width, as the claim words it. -/
def claimedInterpWidths (names prevNames : List String)
    (prevWidths widths : List ℚ) (n : Nat) (tE : ℚ) : List ℚ :=
  (List.range n).map (fun i =>
    entityPrevWidth prevNames prevWidths (names.getD i "") +
      (widths.getD i 0 - entityPrevWidth prevNames prevWidths (names.getD i "")) * tE)

/-- Lines 637-647: interpolated positions are clamped to `[-1, 9]` by
`min(max(.., -1), 9)`. -/
def clampPos (x : ℚ) : ℚ := min (max x (-1)) 9

/-- Lines 637-647: per-slot eased position interpolation
`start + (new - start) * t_eased`, clamped. -/
def interpPositions (startPos newPos : List ℚ) (n : Nat) (tE : ℚ) : List ℚ :=
  (List.range n).map (fun i =>
    clampPos (startPos.getD i 0 + (newPos.getD i 0 - startPos.getD i 0) * tE))

/-- Modelled from the spec: the `AnimationState` container (`modules/state.py`
is not part of the sources; §3 of the spec describes it as the mutable
previous slot contents — names, widths, screen positions — plus the previous
frame's interpolated positions).  `currentNewPositions` is the transition's
cached target-position list (`anim_state.current_new_positions`, written at
each sub-frame 0). -/
structure AnimState where
  prevWidths : List ℚ
  prevNames : List String
  prevPositions : List ℚ
  prevInterpPositions : List ℚ
  currentNewPositions : List ℚ
deriving DecidableEq

/-- The precomputed data the `animate` closure reads for the current main
frame: the target snapshot's widths and names. -/
structure FrameData where
  widths : List ℚ
  names : List String
deriving DecidableEq

/-- Lines 607-614, 630-631: the transition's target positions — freshly set
to the fixed target list at sub-frame 0, read back from the cache
(`anim_state.current_new_positions`) on later sub-frames. -/
def frameNewPositions (n K frame : Nat) (s : AnimState) : List ℚ :=
  if frame % K = 0 then targetPositionsList n else s.currentNewPositions

/-- Lines 607-632: the per-slot start positions of the current sub-frame:
at sub-frame 0 of the whole run, all off-screen; at sub-frame 0 of a later
transition, the identity-mapped previous interpolated positions; on
intermediate sub-frames, the rolling interpolated-position cache. -/
def frameStartPositions (n K frame : Nat) (data : FrameData) (s : AnimState) :
    List ℚ :=
  if frame % K = 0 then
    (if frame = 0 then List.replicate n (-1 : ℚ)
     else startPositions data.names s.prevNames s.prevInterpPositions)
  else s.prevInterpPositions

/-- Line 634: `t = sub_step / (interp_steps - 1) if interp_steps > 1 else
1.0`. -/
def frameT (K frame : Nat) : ℚ :=
  if 1 < K then ((frame % K : Nat) : ℚ) / ((K : ℚ) - 1) else 1

/-- Lines 634-647 and 692-695: the interpolated positions of the current
sub-frame, with the first-frame special case (`frame == 0 and sub_step == 0`)
forcing every slot off-screen. -/
def frameInterpPositions (n K frame : Nat) (data : FrameData) (s : AnimState) :
    List ℚ :=
  if frame = 0 ∧ frame % K = 0 then List.replicate n (-1 : ℚ)
  else
    interpPositions (frameStartPositions n K frame data s)
      (frameNewPositions n K frame s) n (quadratic_ease_in_out (frameT K frame))

/-- Lines 607-632 and 843-850: the `AnimationState` mutation performed by one
call of `animate` (writes only; `n` is `top_n`, `K` is `interp_steps`).  At
sub-frame 0 the transition's target positions are cached; at the last
sub-frame (`sub_step == interp_steps - 1`) the "previous" fields are
overwritten with the just-reached snapshot's widths and names and with the
target positions; on other sub-frames only the rolling interpolated-position
cache is rewritten. -/
def animateStep (n K frame : Nat) (data : FrameData) (s : AnimState) :
    AnimState :=
  let s1 := if frame % K = 0 then
    { s with currentNewPositions := targetPositionsList n } else s
  if frame % K = K - 1 then
    { s1 with
      prevWidths := data.widths
      prevNames := data.names
      prevPositions := frameNewPositions n K frame s
      prevInterpPositions := targetPositionsList n }
  else
    { s1 with prevInterpPositions := frameInterpPositions n K frame data s }

/-- Line 658: `max_width = max(interp_widths) if interp_widths else 1`. -/
def maxListQ : List ℚ → ℚ
  | [] => 1
  | x :: xs => xs.foldl max x

/-- Lines 662-675: `min_bar_width_mapping.get(top_n, 0.11)` — the per-`N`
minimum-width fraction table with default `0.11`. -/
def minBarWidthMultiplier (n : Nat) : ℚ :=
  if n = 1 then 30/100
  else if n = 2 then 54/100
  else if n = 3 then 37/100
  else if n = 4 then 28/100
  else if n = 5 then 22/100
  else if n = 6 then 19/100
  else if n = 7 then 16/100
  else if n = 8 then 14/100
  else if n = 9 then 13/100
  else if n = 10 then 11/100
  else 11/100

/-- Lines 680-689: a slot is active iff its interpolated width is positive
and its entity name (empty when the slot index is out of range) is
non-empty. -/
def activeBar (iw : List ℚ) (names : List String) (i : Nat) : Bool :=
  decide (0 < iw.getD i 0) && decide (names.getD i "" ≠ "")

/-- Lines 676-689: the displayed bar width: an active slot's interpolated
width floored at `max_width * multiplier`; an inactive slot renders at 0. -/
def displayWidth (iw : List ℚ) (names : List String) (n i : Nat) : ℚ :=
  if activeBar iw names i then
    max (iw.getD i 0) (maxListQ iw * minBarWidthMultiplier n)
  else 0

/-- Line 744: the numeric value text next to an active bar renders
`interp_widths[i]` — the UNfloored interpolated value. -/
def valueTextNumber (iw : List ℚ) (i : Nat) : ℚ := iw.getD i 0

/-! ### Claim C4: the identity mapping of the transition -/

/-- C4: at the first sub-frame of a transition, each new slot `i` whose entity
name appears anywhere in the previous snapshot's name list is mapped to the
index of that name's FIRST occurrence there (so an entity present in both
snapshots under the same display name continues from its previous position,
never "entering"), and every other new slot is mapped to the fixed off-screen
start position `-1`.  The mapping `barMapping` reads nothing but the two name
lists, so it is a deterministic function of the two snapshots. -/
theorem barMapping_first_occurrence (names prevNames : List String)
    (prevInterp : List ℚ) (i : Nat) (hi : i < names.length) :
    (names[i] ∈ prevNames →
      ∃ j, j < prevNames.length ∧
        (barMapping names prevNames).getD i none = some j ∧
        prevNames.getD j "" = names[i] ∧
        (∀ j', j' < j → prevNames.getD j' "" ≠ names[i]) ∧
        (startPositions names prevNames prevInterp).getD i 0 =
          prevInterp.getD j 0) ∧
    (names[i] ∉ prevNames →
      (barMapping names prevNames).getD i none = none ∧
      (startPositions names prevNames prevInterp).getD i 0 = -1) := by
  have hmap : (barMapping names prevNames).getD i none =
      prevNames.findIdx? (fun p => p == names[i]) := by
    unfold barMapping
    rw [List.getD_eq_getElem?_getD, List.getElem?_map,
      List.getElem?_eq_getElem hi]
    rfl
  have hstart : (startPositions names prevNames prevInterp).getD i 0 =
      ((prevNames.findIdx? (fun p => p == names[i])).map
        (fun j => prevInterp.getD j 0)).getD (-1) := by
    unfold startPositions barMapping
    rw [List.getD_eq_getElem?_getD, List.getElem?_map, List.getElem?_map,
      List.getElem?_eq_getElem hi]
    rfl
  constructor
  · intro hmem
    have hexists : ∃ x, x ∈ prevNames ∧ (x == names[i]) = true :=
      ⟨names[i], hmem, beq_self_eq_true _⟩
    have hsome : (prevNames.findIdx? (fun p => p == names[i])).isSome := by
      rw [List.findIdx?_isSome, List.any_eq_true]
      exact hexists
    obtain ⟨j, hj⟩ := Option.isSome_iff_exists.mp hsome
    obtain ⟨hjlt, hpj, hprior⟩ := List.findIdx?_eq_some_iff_getElem.mp hj
    refine ⟨j, hjlt, ?_, ?_, ?_, ?_⟩
    · rw [hmap, hj]
    · rw [List.getD_eq_getElem _ _ hjlt]
      exact eq_of_beq hpj
    · intro j' hj' hcontra
      have hlt' : j' < prevNames.length := Nat.lt_trans hj' hjlt
      apply hprior j' hj'
      rw [List.getD_eq_getElem _ _ hlt'] at hcontra
      rw [hcontra]
      exact beq_self_eq_true _
    · rw [hstart, hj]
      rfl
  · intro hmem
    have hnone : prevNames.findIdx? (fun p => p == names[i]) = none := by
      rw [List.findIdx?_eq_none_iff]
      intro x hx
      rw [beq_eq_false_iff_ne]
      intro hcontra
      exact hmem (hcontra ▸ hx)
    refine ⟨?_, ?_⟩
    · rw [hmap, hnone]
    · rw [hstart, hnone]
      rfl

/-- C4 witness: previous names `["A", "B", "C"]` with rolling positions
`[1, 2, 3]`, new names `["B", "A", "C"]`, slot `0`: the name `"B"` is found at
previous index `1` (its first occurrence) and the slot starts from position
`2`; the not-in-previous branch holds vacuously. -/
theorem barMapping_first_occurrence_witness :
    ("B" ∈ ["A", "B", "C"] →
      ∃ j, j < (["A", "B", "C"] : List String).length ∧
        (barMapping ["B", "A", "C"] ["A", "B", "C"]).getD 0 none = some j ∧
        (["A", "B", "C"] : List String).getD j "" = "B" ∧
        (∀ j', j' < j → (["A", "B", "C"] : List String).getD j' "" ≠ "B") ∧
        (startPositions ["B", "A", "C"] ["A", "B", "C"]
          ([1, 2, 3] : List ℚ)).getD 0 0 = ([1, 2, 3] : List ℚ).getD j 0) ∧
    ("B" ∉ ["A", "B", "C"] →
      (barMapping ["B", "A", "C"] ["A", "B", "C"]).getD 0 none = none ∧
      (startPositions ["B", "A", "C"] ["A", "B", "C"]
        ([1, 2, 3] : List ℚ)).getD 0 0 = -1) :=
  barMapping_first_occurrence ["B", "A", "C"] ["A", "B", "C"] [1, 2, 3] 0
    (by decide)

/-! ### Claim C5: width interpolation baseline -/

/-- C5 counterexample: previous snapshot `["A", "B"]` with widths `[10, 5]`,
new snapshot `["C", "B"]` with target widths `[7, 5]`, evaluated at the eased
parameter of sub-frame 1 of 14 (`t = 1/13`).  Slot 0's entity `"C"` is new,
so the claim says its width interpolates from `0`; the source interpolates
from `prev_widths[0] = 10`, the width previously stored at the same slot
index, so the two computations differ. -/
theorem interpWidths_counterexample :
    interpWidths [10, 5] [7, 5] 2 (quadratic_ease_in_out (1/13)) ≠
      claimedInterpWidths ["C", "B"] ["A", "B"] [10, 5] [7, 5] 2
        (quadratic_ease_in_out (1/13)) := by
  intro h
  have h0 := congrArg (fun l => l.getD 0 0) h
  dsimp only at h0
  have hL : (interpWidths [10, 5] [7, 5] 2 (quadratic_ease_in_out (1/13))).getD 0 0 =
      10 + (7 - 10) * quadratic_ease_in_out (1/13) := rfl
  have hR : (claimedInterpWidths ["C", "B"] ["A", "B"] [10, 5] [7, 5] 2
      (quadratic_ease_in_out (1/13))).getD 0 0 = 0 + (7 - 0) * quadratic_ease_in_out (1/13) := rfl
  rw [hL, hR] at h0
  norm_num [quadratic_ease_in_out] at h0

/-- C5 amended: the interpolated bar width of slot `i` equals
`prev_widths[i] + (target - prev_widths[i]) * quadratic_ease_in_out(t)` where `prev_widths[i]`
is the width previously stored at the SAME SLOT INDEX `i` (regardless of
which entity occupied it): the previous width is not looked up through the
identity mapping and is not `0` for a slot whose entity is new. -/
theorem interpWidths_slot_indexed (prevWidths widths : List ℚ) (n : Nat)
    (tE : ℚ) (i : Nat) (hi : i < n) (hp : prevWidths.length = n) :
    (interpWidths prevWidths widths n tE).getD i 0 =
      prevWidths.getD i 0 + (widths.getD i 0 - prevWidths.getD i 0) * tE := by
  unfold interpWidths
  rw [List.getD_eq_getElem?_getD, List.getElem?_map, List.getElem?_range hi]
  rw [Option.map_some']
  show (if i < prevWidths.length then _ else _) = _
  rw [if_pos (by omega)]

/-- C5 amended witness: at the counterexample's inputs and slot 0, the
interpolated width is `10 + (7 - 10) * quadratic_ease_in_out(1/13)`, built from the slot's
previous width `10`. -/
theorem interpWidths_slot_indexed_witness :
    (interpWidths [10, 5] [7, 5] 2 (quadratic_ease_in_out (1/13))).getD 0 0 =
      (10 : ℚ) + (7 - 10) * quadratic_ease_in_out (1/13) :=
  interpWidths_slot_indexed [10, 5] [7, 5] 2 (quadratic_ease_in_out (1/13)) 0 (by decide) rfl

/-! ### Claim C6: interpolation endpoints -/

/-- C6 counterexample: previous snapshot `["A", "B"]` with widths `[10, 5]`,
new snapshot `["B", "A"]` (ranks swapped) with targets `[6, 12]`.  At `t = 0`
the claim says the previous frame's PER-ENTITY widths are reproduced: slot 0
now holds `"B"`, whose previous width was `5`.  The source instead reproduces
the slot-indexed previous width `prev_widths[0] = 10`, so after a rank swap
the `t = 0` sub-frame does not reproduce the previous frame's per-entity
state. -/
theorem t0_reproduction_counterexample :
    interpWidths [10, 5] [6, 12] 2 (quadratic_ease_in_out 0) ≠
      claimedInterpWidths ["B", "A"] ["A", "B"] [10, 5] [6, 12] 2 (quadratic_ease_in_out 0) := by
  intro h
  have h0 := congrArg (fun l => l.getD 0 0) h
  dsimp only at h0
  have hL : (interpWidths [10, 5] [6, 12] 2 (quadratic_ease_in_out 0)).getD 0 0 =
      10 + (6 - 10) * quadratic_ease_in_out 0 := rfl
  have hR : (claimedInterpWidths ["B", "A"] ["A", "B"] [10, 5] [6, 12] 2
      (quadratic_ease_in_out 0)).getD 0 0 = 5 + (6 - 5) * quadratic_ease_in_out 0 := rfl
  rw [hL, hR] at h0
  norm_num [quadratic_ease_in_out] at h0

/-- C6 amended: for slot lists of length `n` whose entries lie in the
clamping range `[-1, 9]`, the eased interpolation at `t = 0` reproduces the
start positions exactly (at the first sub-frame of a transition these are the
identity-mapped previous interpolated positions, so positions are per-entity)
and reproduces the SLOT-INDEXED previous widths (`prev_widths[i]`, not the
per-entity previous widths); at `t = 1` it yields exactly the target
snapshot's widths and the target positions.  In the rational model the
equalities are exact. -/
theorem interpolation_endpoints (startPos newPos prevWidths widths : List ℚ)
    (n : Nat) (hs : startPos.length = n) (hn : newPos.length = n)
    (hp : prevWidths.length = n) (hw : widths.length = n)
    (hsr : ∀ x ∈ startPos, -1 ≤ x ∧ x ≤ 9)
    (hnr : ∀ x ∈ newPos, -1 ≤ x ∧ x ≤ 9) :
    quadratic_ease_in_out 0 = 0 ∧ quadratic_ease_in_out 1 = 1 ∧
    interpPositions startPos newPos n (quadratic_ease_in_out 0) = startPos ∧
    interpWidths prevWidths widths n (quadratic_ease_in_out 0) = prevWidths ∧
    interpPositions startPos newPos n (quadratic_ease_in_out 1) = newPos ∧
    interpWidths prevWidths widths n (quadratic_ease_in_out 1) = widths := by
  have h0 : quadratic_ease_in_out 0 = 0 := by norm_num [quadratic_ease_in_out]
  have h1 : quadratic_ease_in_out 1 = 1 := by norm_num [quadratic_ease_in_out]
  refine ⟨h0, h1, ?_, ?_, ?_, ?_⟩
  · apply List.ext_getElem
    · simp [interpPositions, hs]
    · intro i hi1 hi2
      simp only [interpPositions] at hi1 ⊢
      rw [List.getElem_map, List.getElem_range, h0]
      have hgd : startPos.getD i 0 = startPos[i] := List.getD_eq_getElem _ _ hi2
      obtain ⟨hlo, hhi⟩ := hsr startPos[i] (List.getElem_mem hi2)
      rw [hgd]
      unfold clampPos
      rw [mul_zero, add_zero, max_eq_left hlo, min_eq_left hhi]
  · apply List.ext_getElem
    · simp [interpWidths, hp]
    · intro i hi1 hi2
      simp only [interpWidths] at hi1 ⊢
      rw [List.getElem_map, List.getElem_range, h0]
      rw [if_pos hi2]
      have hgd : prevWidths.getD i 0 = prevWidths[i] :=
        List.getD_eq_getElem _ _ hi2
      rw [hgd, mul_zero, add_zero]
  · apply List.ext_getElem
    · simp [interpPositions, hn]
    · intro i hi1 hi2
      simp only [interpPositions] at hi1 ⊢
      rw [List.getElem_map, List.getElem_range, h1]
      have hin : i < n := by rw [← hn]; exact hi2
      have hgs : startPos.getD i 0 = startPos[i] :=
        List.getD_eq_getElem _ _ (by omega)
      have hgn : newPos.getD i 0 = newPos[i] := List.getD_eq_getElem _ _ hi2
      obtain ⟨hlo, hhi⟩ := hnr newPos[i] (List.getElem_mem hi2)
      rw [hgs, hgn]
      have harith : startPos[i] + (newPos[i] - startPos[i]) * 1 = newPos[i] := by
        ring
      unfold clampPos
      rw [harith, max_eq_left hlo, min_eq_left hhi]
  · apply List.ext_getElem
    · simp [interpWidths, hw]
    · intro i hi1 hi2
      simp only [interpWidths] at hi1 ⊢
      rw [List.getElem_map, List.getElem_range, h1]
      have hin : i < n := by rw [← hw]; exact hi2
      rw [if_pos (by omega)]
      have hgp : prevWidths.getD i 0 = prevWidths[i] :=
        List.getD_eq_getElem _ _ (by omega)
      have hgw : widths.getD i 0 = widths[i] := List.getD_eq_getElem _ _ hi2
      rw [hgp, hgw]
      ring

/-- C6 amended witness: a concrete two-slot transition with start positions
`[-1, 2]`, targets `[3, 4]`, previous widths `[1, 2]` and target widths
`[5, 6]`. -/
theorem interpolation_endpoints_witness :
    quadratic_ease_in_out 0 = 0 ∧ quadratic_ease_in_out 1 = 1 ∧
    interpPositions [-1, 2] [3, 4] 2 (quadratic_ease_in_out 0) = [-1, 2] ∧
    interpWidths [1, 2] [5, 6] 2 (quadratic_ease_in_out 0) = [1, 2] ∧
    interpPositions [-1, 2] [3, 4] 2 (quadratic_ease_in_out 1) = [3, 4] ∧
    interpWidths [1, 2] [5, 6] 2 (quadratic_ease_in_out 1) = [5, 6] :=
  interpolation_endpoints [-1, 2] [3, 4] [1, 2] [5, 6] 2 rfl rfl rfl rfl
    (by intro x hx; rcases List.mem_pair.mp hx with rfl | rfl <;> norm_num)
    (by intro x hx; rcases List.mem_pair.mp hx with rfl | rfl <;> norm_num)

/-! ### Claim C7: AnimationState carry-over -/

/-- C7: on a sub-frame with `sub_step < K - 1` the `animate` step leaves
`prev_widths`, `prev_names` and `prev_positions` unchanged and rewrites the
rolling interpolated-position cache with the sub-frame's interpolated
positions; on the sub-frame with `sub_step == K - 1` it overwrites
`prev_widths` and `prev_names` with the just-reached target snapshot's widths
and names and both position fields with the target positions (the hypothesis
records the standing invariant that the cached transition targets are the
fixed target-position list, which sub-frame 0 of every transition
establishes). -/
theorem animateStep_state_carry (n K frame : Nat) (data : FrameData)
    (s : AnimState) (hcur : s.currentNewPositions = targetPositionsList n) :
    (frame % K < K - 1 →
      (animateStep n K frame data s).prevWidths = s.prevWidths ∧
      (animateStep n K frame data s).prevNames = s.prevNames ∧
      (animateStep n K frame data s).prevPositions = s.prevPositions ∧
      (animateStep n K frame data s).prevInterpPositions =
        frameInterpPositions n K frame data s) ∧
    (frame % K = K - 1 →
      (animateStep n K frame data s).prevWidths = data.widths ∧
      (animateStep n K frame data s).prevNames = data.names ∧
      (animateStep n K frame data s).prevPositions = targetPositionsList n ∧
      (animateStep n K frame data s).prevInterpPositions =
        targetPositionsList n) := by
  constructor
  · intro hlt
    have hne : ¬ (frame % K = K - 1) := by omega
    by_cases h0 : frame % K = 0
    · have hne0 : ¬ ((0 : Nat) = K - 1) := by omega
      simp [animateStep, h0, if_neg hne0]
    · simp [animateStep, h0, if_neg hne]
  · intro heq
    by_cases h0 : frame % K = 0
    · have h00 : ((0 : Nat) = K - 1) := by omega
      simp [animateStep, h0, if_pos h00, frameNewPositions, hcur]
    · simp [animateStep, h0, heq, frameNewPositions, hcur]

/-- C7 witness: a concrete intermediate sub-frame (`frame = 1`, `K = 3`, so
`sub_step = 1 < K - 1`): the three "previous" fields are untouched and only
the rolling cache is rewritten; the last-sub-frame clause holds vacuously. -/
theorem animateStep_state_carry_witness :
    ((1 : Nat) % 3 < 3 - 1 →
      (animateStep 1 3 1 ⟨[2], ["B"]⟩
        ⟨[0], ["A"], [7], [5], targetPositionsList 1⟩).prevWidths = [0] ∧
      (animateStep 1 3 1 ⟨[2], ["B"]⟩
        ⟨[0], ["A"], [7], [5], targetPositionsList 1⟩).prevNames = ["A"] ∧
      (animateStep 1 3 1 ⟨[2], ["B"]⟩
        ⟨[0], ["A"], [7], [5], targetPositionsList 1⟩).prevPositions = [7] ∧
      (animateStep 1 3 1 ⟨[2], ["B"]⟩
        ⟨[0], ["A"], [7], [5], targetPositionsList 1⟩).prevInterpPositions =
        frameInterpPositions 1 3 1 ⟨[2], ["B"]⟩
          ⟨[0], ["A"], [7], [5], targetPositionsList 1⟩) ∧
    ((1 : Nat) % 3 = 3 - 1 →
      (animateStep 1 3 1 ⟨[2], ["B"]⟩
        ⟨[0], ["A"], [7], [5], targetPositionsList 1⟩).prevWidths = [2] ∧
      (animateStep 1 3 1 ⟨[2], ["B"]⟩
        ⟨[0], ["A"], [7], [5], targetPositionsList 1⟩).prevNames = ["B"] ∧
      (animateStep 1 3 1 ⟨[2], ["B"]⟩
        ⟨[0], ["A"], [7], [5], targetPositionsList 1⟩).prevPositions =
        targetPositionsList 1 ∧
      (animateStep 1 3 1 ⟨[2], ["B"]⟩
        ⟨[0], ["A"], [7], [5], targetPositionsList 1⟩).prevInterpPositions =
        targetPositionsList 1) :=
  animateStep_state_carry 1 3 1 ⟨[2], ["B"]⟩
    ⟨[0], ["A"], [7], [5], targetPositionsList 1⟩ rfl

/-! ### Claim C8: the minimum-width floor for top 5 -/

/-- C8: for `top_n = 5`, every active slot (positive interpolated width,
non-empty name) renders with displayed width at least `0.22` times
`max(interp_widths)`, the current frame's maximum width — in particular a
slot whose value is 1% of the maximum still renders at `≥ 0.22 × max` — while
the numeric value text shows the unfloored interpolated value
`interp_widths[i]`, unaffected by the floor. -/
theorem minWidth_floor_top5 (iw : List ℚ) (names : List String) (i : Nat)
    (h : activeBar iw names i = true) :
    (22/100 : ℚ) * maxListQ iw ≤ displayWidth iw names 5 i ∧
    valueTextNumber iw i = iw.getD i 0 := by
  refine ⟨?_, rfl⟩
  unfold displayWidth
  rw [if_pos h]
  have h5 : minBarWidthMultiplier 5 = 22/100 := rfl
  calc (22/100 : ℚ) * maxListQ iw
      = maxListQ iw * minBarWidthMultiplier 5 := by rw [h5]; ring
    _ ≤ max (iw.getD i 0) (maxListQ iw * minBarWidthMultiplier 5) :=
        le_max_right _ _

/-- C8 witness: interpolated widths `[100, 1]` (slot 1's value is 1% of the
frame maximum), names `["A", "B"]`: slot 1 is active, its displayed width is
floored to at least `0.22 × 100`, and its value text still shows `1`. -/
theorem minWidth_floor_top5_witness :
    (22/100 : ℚ) * maxListQ [100, 1] ≤ displayWidth [100, 1] ["A", "B"] 5 1 ∧
    valueTextNumber [100, 1] 1 = ([100, 1] : List ℚ).getD 1 0 :=
  minWidth_floor_top5 [100, 1] ["A", "B"] 1
    (by unfold activeBar
        rw [Bool.and_eq_true, decide_eq_true_eq, decide_eq_true_eq]
        exact ⟨by norm_num, by decide⟩)
